import Mathlib

/-!
Verification development for the snet5 news service.

The sources embedded here are:
  * `src/front/backend/new_data_collect/lambda_news_collector.py`
    (the ingestion Lambda: `lambda_handler`, `download_and_upload_image`,
    `extract_image_from_article`, `get_news_from_dynamodb`, `clean_html_tags`);
  * `src/backend/news-api-service/main.py` (the read API: `startup_event`,
    `get_news`).

Python strings are modelled as `List Char` (code-point lists; Python string
comparison is code-point lexicographic, which the helpers below implement).
Network and clock effects are modelled as explicit oracle parameters: each
`requests`/`boto3` call site reads its response from a `World` record, and
each `datetime.now()` / `uuid.uuid4()` call site reads from a per-call-site
oracle stream.  Exceptions are modelled in-band: a Python call that may raise
an exception that the source catches is an `Option`/sum-typed oracle value.
-/

abbrev Str := List Char

/-- Coerce a Lean string literal to the `List Char` representation. -/
def str (s : String) : Str := s.data

/-- Boolean test: `pat` is a prefix of `s` (Python `str.startswith`). -/
def startsWithL : Str → Str → Bool
  | [], _ => true
  | _ :: _, [] => false
  | a :: as, b :: bs => a == b && startsWithL as bs

/-- Boolean test: `needle` occurs as a contiguous substring of `hay`
(Python `needle in hay`). -/
def hasSub (needle : Str) : Str → Bool
  | [] => startsWithL needle []
  | c :: cs => startsWithL needle (c :: cs) || hasSub needle cs

/-- Boolean test: `pat` is a suffix of `s`. -/
def endsWithL (pat s : Str) : Bool := startsWithL pat.reverse s.reverse

/-- Python `str.lower`, restricted to the ASCII range that matters here. -/
def toLowerL (s : Str) : Str := s.map Char.toLower

/-- Code-point lexicographic strict order on strings: the order Python uses
for `<` on `str` and inside `sorted`. -/
def strLtB : Str → Str → Bool
  | [], [] => false
  | [], _ :: _ => true
  | _ :: _, [] => false
  | a :: as, b :: bs =>
    if a.val < b.val then true
    else if a.val = b.val then strLtB as bs
    else false

/-- The ASCII digit character for a single decimal digit. -/
def digitChar : Nat → Char
  | 0 => '0' | 1 => '1' | 2 => '2' | 3 => '3' | 4 => '4'
  | 5 => '5' | 6 => '6' | 7 => '7' | 8 => '8' | 9 => '9'
  | _ => '?'

/-- Decimal rendering of `n` zero-padded to exactly `w` digits, as produced
by `strftime` field directives such as `%m`/`%d`/`%H`/`%M`/`%S` (width 2) and
`%Y` (width 4, for the years `1000..9999` that `datetime` produces). -/
def padNat : Nat → Nat → Str
  | 0, _ => []
  | w + 1, n => padNat w (n / 10) ++ [digitChar (n % 10)]

/-- Unpadded decimal rendering of `n`, as produced by the f-string
interpolation `f"{now.year}"`. -/
def natStr (n : Nat) : Str := Nat.toDigits 10 n

/-! ## `clean_html_tags` (lambda_news_collector.py lines 78-81)

The source applies `re.sub(re.compile('<.*?>'), '', text)`.  In Python
regular expressions `.` matches any character except a newline and `*?` is
non-greedy, so a match is a `<`, followed by a shortest run of characters
containing neither `>` nor a newline, followed by `>`; `re.sub` scans left to
right and removes every such non-overlapping match.  `cleanAux` implements
exactly this scan as a structural state machine: in state `none` it copies
characters until a `<` opens a candidate match; in state `some buf` it buffers
the characters read since that `<` (in reverse) until either a `>` closes the
match (the whole buffer is dropped), or a newline / end of input aborts it
(the buffer is emitted verbatim, which is also what the regex scan produces,
because no `<` inside the buffer can reach a `>` before the same newline or
end of input). -/

def cleanAux : Option Str → Str → Str
  | none, [] => []
  | none, c :: cs => if c = '<' then cleanAux (some [c]) cs else c :: cleanAux none cs
  | some buf, [] => buf.reverse
  | some buf, c :: cs =>
    if c = '>' then cleanAux none cs
    else if c = '\n' then buf.reverse ++ '\n' :: cleanAux none cs
    else cleanAux (some (c :: buf)) cs

/-- `clean_html_tags` from the collector source. -/
def clean_html_tags (s : Str) : Str := cleanAux none s

/-- Does the line prefix of `s` (the characters before the first newline)
contain a `>`? -/
def lineHasGt : Str → Bool
  | [] => false
  | c :: cs => if c = '>' then true else if c = '\n' then false else lineHasGt cs

/-- Checker: no `<` in `s` is followed by a `>` with no newline in between,
i.e. `s` contains no markup tag lying on a single line. -/
def noLineTagB : Str → Bool
  | [] => true
  | c :: cs => (if c = '<' then !lineHasGt cs else true) && noLineTagB cs

/-- Checker for the spec's notion of a markup tag: some `<` in `s` is
followed (anywhere later) by a `>`. -/
def containsTagB : Str → Bool
  | [] => false
  | c :: cs => (c == '<' && cs.contains '>') || containsTagB cs

/-! ## `extract_image_from_article` (lambda_news_collector.py lines 238-308)

The five `soup.find` calls are the HTML-parsing boundary: their results are
modelled as the five fields of `Page` (in source order), each an optional
found element.  An element carries the attributes the source reads:
an `img` element its `src` and `data-src` attributes, a `meta` element its
`content` attribute. -/

inductive Tag where
  | img (src dataSrc : Option Str)
  | meta (content : Option Str)
deriving DecidableEq

/-- Results of the five `soup.find` strategy calls, in source order:
classed `img`; `og:image` meta; `twitter:image` meta; first `img` inside a
classed container `div`; first `img` anywhere. -/
structure Page where
  p1 : Option Tag
  p2 : Option Tag
  p3 : Option Tag
  p4 : Option Tag
  p5 : Option Tag
deriving DecidableEq

/-- The `img_patterns` list after the `if img_tag:` filtering of the loop
(`None` entries are skipped). -/
def patternsOf (p : Page) : List Tag :=
  [p.p1, p.p2, p.p3, p.p4, p.p5].filterMap id

/-- Python `a or b` on optional strings: an absent or empty left operand is
falsy and selects the right operand. -/
def pyOr (a b : Option Str) : Option Str :=
  match a with
  | some s => if s = [] then b else some s
  | none => b

/-- The candidate source attribute the loop body reads from the matched
element: `img_tag.get('src') or img_tag.get('data-src')` for an `img`,
`img_tag.get('content')` for a `meta`. -/
def srcOf : Tag → Option Str
  | .img s d => pyOr s d
  | .meta c => c

/-- Split a URL after the first `://`: returns the part up to and including
`://` and the remainder.  Used to model `urllib.parse.urljoin` for a
root-relative reference. -/
def splitSS : Str → Option (Str × Str)
  | [] => none
  | ':' :: '/' :: '/' :: rest => some ([':', '/', '/'], rest)
  | c :: rest => (splitSS rest).map (fun p => (c :: p.1, p.2))

/-- `urljoin(article_url, src)` for a `src` starting with a single `/`:
the result is the article URL's scheme and network location followed by
`src`. -/
def urljoinRoot (base src : Str) : Str :=
  match splitSS base with
  | some (pre, rest) => pre ++ rest.takeWhile (fun c => c ≠ '/' && c ≠ '?' && c ≠ '#') ++ src
  | none => src

/-- The acceptance test of the loop body:
`any(ext in image_url.lower() for ext in ['.jpg', '.jpeg', '.png', '.gif', '.webp'])`.
Note this is a substring test over the whole URL, not a path-suffix test. -/
def extOkB (u : Str) : Bool :=
  [str ".jpg", str ".jpeg", str ".png", str ".gif", str ".webp"].any
    (fun e => hasSub e (toLowerL u))

/-- The URL-normalisation conditional of the loop body: protocol-relative
gets `https:` prepended, root-relative is resolved against the article URL,
a URL already starting with `http` is taken verbatim, and any other shape
leaves the `image_url` variable unchanged (modelled by `none` here; the
caller keeps the previous state in that case, exactly as the source's
`image_url` variable does). -/
def normalizeSrc (articleUrl src : Str) : Option Str :=
  if startsWithL (str "//") src then some (str "https:" ++ src)
  else if startsWithL (str "/") src then some (urljoinRoot articleUrl src)
  else if startsWithL (str "http") src then some src
  else none

/-- The `for img_tag in img_patterns` loop.  `st` is the current value of the
source's `image_url` local variable (which persists across iterations: an
iteration whose `src` matches none of the three normalisation branches
re-tests the stale value from an earlier iteration). -/
def extractLoop (articleUrl : Str) : List Tag → Option Str → Option Str
  | [], _ => none
  | t :: rest, st =>
    match srcOf t with
    | none => extractLoop articleUrl rest st
    | some s =>
      if s = [] then extractLoop articleUrl rest st
      else
        let st' := match normalizeSrc articleUrl s with
          | some u => some u
          | none => st
        match st' with
        | some u => if extOkB u then some u else extractLoop articleUrl rest st'
        | none => extractLoop articleUrl rest st'

/-- `extract_image_from_article` applied to a successfully fetched and parsed
article page. -/
def extractFromPage (articleUrl : Str) (p : Page) : Option Str :=
  extractLoop articleUrl (patternsOf p) none

/-- `extract_image_from_article`: `fetched` is the outcome of the
`requests.get` + BeautifulSoup step (`none` models a transport or parse
exception, which the source catches and turns into `None`). -/
def extract_image_from_article (fetch : Str → Option Page) (articleUrl : Str) : Option Str :=
  match fetch articleUrl with
  | none => none
  | some p => extractFromPage articleUrl p

/-- The per-element acceptance function the loop implements observationally:
the element's truthy source attribute, normalised, provided the normalised
URL passes the extension substring test. -/
def acceptTag (articleUrl : Str) (t : Tag) : Option Str :=
  match srcOf t with
  | none => none
  | some s =>
    if s = [] then none
    else match normalizeSrc articleUrl s with
      | some u => if extOkB u then some u else none
      | none => none

/-! ## `download_and_upload_image` (lambda_news_collector.py lines 179-236) -/

/-- A successful (2xx after `raise_for_status`) image download response:
only the `content-type` header is inspected by the source (the body is
passed opaquely to the upload). -/
structure ImgResp where
  contentType : Option Str
deriving DecidableEq

/-- The entries of Python's `mimetypes.guess_extension` relevant to image
content types; any other argument (including an empty or parameterised
content type) yields `none`. -/
def guessExtension (ct : Str) : Option Str :=
  if ct = str "image/jpeg" then some (str ".jpg")
  else if ct = str "image/png" then some (str ".png")
  else if ct = str "image/gif" then some (str ".gif")
  else if ct = str "image/webp" then some (str ".webp")
  else if ct = str "image/svg+xml" then some (str ".svg")
  else if ct = str "image/bmp" then some (str ".bmp")
  else if ct = str "image/tiff" then some (str ".tiff")
  else none

/-- A calendar timestamp as read from `datetime.now()`. -/
structure Timestamp where
  y : Nat
  mo : Nat
  d : Nat
  h : Nat
  mi : Nat
  s : Nat
deriving DecidableEq

/-- The S3 object key
`f"images/news/{now.year}/{now.month:02d}/{now.day:02d}/{uid}{file_extension}"`. -/
def s3KeyOf (dt : Timestamp) (uid ext : Str) : Str :=
  str "images/news/" ++ natStr dt.y ++ str "/" ++ padNat 2 dt.mo ++ str "/"
    ++ padNat 2 dt.d ++ str "/" ++ uid ++ ext

/-- The fixed CloudFront distribution base used to build the returned URL. -/
def cdnBase : Str := str "https://d3nvut5aamy17o.cloudfront.net/"

/-- The `mimetypes.guess_extension(content_type) or '.jpg'` step: the
detected file extension, defaulting to `.jpg` when the content type is
unrecognised (`guess_extension` returns `None` or a non-empty string, so
Python's `or` is exactly this default). -/
def extFor (ct : Str) : Str := (guessExtension ct).getD (str ".jpg")

/-- The function `download_and_upload_image`.  Inputs: `resp` is the outcome
of the image `requests.get` (`none` models a transport error or a non-2xx
status raised by `raise_for_status`, both caught by the source); `dt` is the
`datetime.now()` read inside the function; `uploadOk key` tells whether the
`put_object` call on `key` succeeds (`false` models a caught `ClientError`).
The result pairs the source's return value with the list of S3 keys passed
to `put_object` (so a run that never reaches the upload has an empty
list). -/
def download_and_upload_image (resp : Option ImgResp) (dt : Timestamp)
    (uploadOk : Str → Bool) (uid : Str) : Option Str × List Str :=
  match resp with
  | none => (none, [])
  | some r =>
    let ct := r.contentType.getD []
    if !hasSub (str "image") ct then (none, [])
    else
      let key := s3KeyOf dt uid (extFor ct)
      if uploadOk key then (some (cdnBase ++ key), [key])
      else (none, [key])

/-! ## uid generation and the ingestion pipeline (`lambda_handler`) -/

/-- The `now.strftime('%Y%m%d_%H%M%S_')` prefix of a uid. -/
def fmtStamp (t : Timestamp) : Str :=
  padNat 4 t.y ++ padNat 2 t.mo ++ padNat 2 t.d ++ '_' ::
    (padNat 2 t.h ++ padNat 2 t.mi ++ padNat 2 t.s ++ ['_'])

/-- `uid = now.strftime('%Y%m%d_%H%M%S_') + str(uuid.uuid4())[:8]`:
`raw` is the 36-character `str(uuid.uuid4())` randomness source. -/
def mkUid (t : Timestamp) (raw : Str) : Str := fmtStamp t ++ raw.take 8

/-- A raw search-result record as read from the Naver API response JSON
(markup still present in `title`/`description`). -/
structure RawItem where
  title : Str
  description : Str
  originallink : Str
  link : Str
  pubDate : Str
deriving DecidableEq

/-- The record `lambda_handler` assembles and passes to `put_item`. -/
structure NewsItem where
  uid : Str
  id : Str
  keyword : Str
  title : Str
  originallink : Str
  link : Str
  description : Str
  pubDate : Str
  image_url : Option Str
  cloudfront_image_url : Option Str
  collected_at : Str
  content_type : Str
  source : Str
deriving DecidableEq

/-- Outcome of the per-keyword search `requests.get`: a transport exception
(caught by the keyword-level handler) or an HTTP response with a status and
the parsed `items` list. -/
inductive SearchOutcome where
  | err
  | resp (status : Nat) (items : List RawItem)
deriving DecidableEq

/-- The external world an ingestion run observes.  Call-site oracles are
indexed by keyword position and item position, modelling the successive
`datetime.now()` / `uuid.uuid4()` reads and per-item backend outcomes. -/
structure World where
  search : Nat → SearchOutcome
  page : Str → Option Page
  imageResp : Str → Option ImgResp
  uploadOk : Str → Bool
  stamp : Nat → Nat → Timestamp
  rand8 : Nat → Nat → Str
  itemId : Nat → Nat → Str
  collectedAt : Nat → Nat → Str
  archiveDate : Nat → Nat → Timestamp
  putOk : Nat → Nat → Bool

/-- The body of the inner `for item in items` loop for one raw item:
generates `uid` and `id`, strips markup, runs the image sub-pipeline when
`originallink` is truthy, assembles the record, and attempts `put_item`.
Returns the stored record, or `none` when `put_item` raised a `ClientError`
(which the source catches and answers with `continue`). -/
def processItem (w : World) (ki ii : Nat) (keyword : Str) (raw : RawItem) : Option NewsItem :=
  let t := w.stamp ki ii
  let uid := mkUid t (w.rand8 ki ii)
  let image_url :=
    if raw.originallink = [] then none
    else extract_image_from_article w.page raw.originallink
  let cdn := match image_url with
    | none => none
    | some iu => (download_and_upload_image (w.imageResp iu) (w.archiveDate ki ii) w.uploadOk uid).1
  let item : NewsItem :=
    { uid := uid
      id := w.itemId ki ii
      keyword := keyword
      title := clean_html_tags raw.title
      originallink := raw.originallink
      link := raw.link
      description := clean_html_tags raw.description
      pubDate := raw.pubDate
      image_url := image_url
      cloudfront_image_url := cdn
      collected_at := w.collectedAt ki ii
      content_type := str "news"
      source := str "naver_api" }
  if w.putOk ki ii then some item else none

/-- The inner `for item in items` loop: appends each successfully stored
record to `collected_news`, and `continue`s past a failed `put_item`. -/
def itemLoop (w : World) (ki : Nat) (keyword : Str) : Nat → List RawItem → List NewsItem
  | _, [] => []
  | ii, r :: rest =>
    match processItem w ki ii keyword r with
    | some it => it :: itemLoop w ki keyword (ii + 1) rest
    | none => itemLoop w ki keyword (ii + 1) rest

/-- One iteration of the keyword loop: a transport exception is caught by the
`except` handler (no items processed), a non-200 status is logged and skipped,
and a 200 response has its items processed in order. -/
def processKeyword (w : World) (ki : Nat) (keyword : Str) : List NewsItem :=
  match w.search ki with
  | .err => []
  | .resp status items => if status = 200 then itemLoop w ki keyword 0 items else []

/-- The `for keyword in keywords` loop, threading the keyword position and
the accumulated `collected_news` list. -/
def collectLoop (w : World) : Nat → List Str → List NewsItem
  | _, [] => []
  | ki, k :: rest => processKeyword w ki k ++ collectLoop w (ki + 1) rest

/-- The observable result of a run: the returned status code and body fields,
plus the full `collected_news` list (the sequence of successful `put_item`
writes, i.e. the run's effect on the store). -/
structure RunResult where
  statusCode : Nat
  total_collected : Nat
  keywords_searched : List Str
  sample_news : List NewsItem
  collected : List NewsItem
deriving DecidableEq

/-- The keyword loop plus the result assembly of `lambda_handler`,
generalised over the keyword list it drives. -/
def runPipeline (keywords : List Str) (w : World) : RunResult :=
  let collected := collectLoop w 0 keywords
  { statusCode := 200
    total_collected := collected.length
    keywords_searched := keywords
    sample_news := collected.take 3
    collected := collected }

/-- The Lambda invocation event, as built by `test_local`: it can carry a
`keywords` field.  `lambda_handler` receives it but never reads it. -/
structure EventT where
  test : Bool
  keywords : List Str
deriving DecidableEq

/-- The Lambda context object (opaque; the source never reads it). -/
structure CtxT where
  dummy : Nat
deriving DecidableEq

/-- `lambda_handler`: runs the pipeline over the hard-coded keyword list. -/
def lambda_handler (_event : EventT) (_context : CtxT) (w : World) : RunResult :=
  runPipeline [str "비트코인"] w

/-! ## Read path: `get_news_from_dynamodb` and the query service -/

/-- A stored record as returned by the scan's projection expression (only the
fields the read-path claims depend on are carried). -/
structure StoredItem where
  uid : Str
  keyword : Str
deriving DecidableEq

/-- Stable descending insertion by `uid`: `x` is placed before the first
element strictly smaller than it, hence after any earlier equal element. -/
def insertDesc (x : StoredItem) : List StoredItem → List StoredItem
  | [] => [x]
  | y :: ys => if strLtB y.uid x.uid then x :: y :: ys else y :: insertDesc x ys

/-- `sorted(items, key=lambda x: x.get('uid', ''), reverse=True)`: Python's
stable sort in descending `uid` order. -/
def sortDesc (l : List StoredItem) : List StoredItem :=
  l.foldl (fun acc x => insertDesc x acc) []

/-- `get_news_from_dynamodb(limit)`: `table.scan(Limit=limit)` returns the
first `limit` items in the table's scan order (`store` lists the stored items
in that scan order); the page is then sorted by `uid` descending
client-side. -/
def get_news_from_dynamodb (limit : Nat) (store : List StoredItem) : List StoredItem :=
  sortDesc (store.take limit)

/-- Modelled from the spec: `db_manager.get_news(limit, offset, keyword)` of
the read API lives in `database.py`, which is not among the sources; per spec
section 4.6 it fetches a scan page from the store (the scan contract of
section 4.4, realised exactly as in `get_news_from_dynamodb`), applies the
optional keyword filter, then slices `[offset, offset + limit)` client-side
over the returned ordering. -/
def db_get_news (limit offset : Nat) (keyword : Option Str) (store : List StoredItem) :
    List StoredItem :=
  let page := sortDesc (store.take limit)
  let filtered := match keyword with
    | none => page
    | some k => page.filter (fun it => it.keyword = k)
  (filtered.drop offset).take limit

/-! ## `startup_event` (main.py lines 33-44) -/

/-- `startup_event`: `conn` is the outcome of `db_manager.connect()` followed
by `db_manager.get_statistics()` (`.ok n` delivers the stored-item count,
`.error e` models any raised exception).  The source wraps the whole body in
`try/except Exception`, prints a warning, and returns normally either way, so
the embedding never produces an `Except.error`: a failure is logged and the
service keeps serving (`.ok none`). -/
def startup_event (conn : Except Str Nat) : Except Str (Option Nat) :=
  match conn with
  | .ok n => .ok (some n)
  | .error _ => .ok none

/-! ## Lemmas about the extraction loop -/

lemma startsWithL_ex {p s : Str} (h : startsWithL p s = true) : ∃ r, s = p ++ r := by
  induction p generalizing s with
  | nil => exact ⟨s, rfl⟩
  | cons c cs ih =>
    cases s with
    | nil => cases h
    | cons b bs =>
      simp only [startsWithL, Bool.and_eq_true, beq_iff_eq] at h
      obtain ⟨rfl, h2⟩ := h
      obtain ⟨r, rfl⟩ := ih h2
      exact ⟨r, rfl⟩

lemma acceptTag_extOk {a : Str} {t : Tag} {u : Str} (h : acceptTag a t = some u) :
    extOkB u = true := by
  unfold acceptTag at h
  cases hs : srcOf t with
  | none => rw [hs] at h; cases h
  | some s =>
    rw [hs] at h
    by_cases hse : s = []
    · simp [hse] at h
    · simp only [hse, if_false] at h
      cases hn : normalizeSrc a s with
      | none => rw [hn] at h; cases h
      | some v =>
        rw [hn] at h
        by_cases he : extOkB v = true
        · simp only [he, if_true] at h
          cases h
          exact he
        · simp [he] at h

lemma extractLoop_eq (a : Str) : ∀ (l : List Tag) (st : Option Str),
    (∀ u, st = some u → extOkB u = false) →
    extractLoop a l st = l.findSome? (acceptTag a) := by
  intro l
  induction l with
  | nil => intro st _; rfl
  | cons t rest ih =>
    intro st hst
    cases hs : srcOf t with
    | none =>
      have hR : acceptTag a t = none := by simp [acceptTag, hs]
      simp [extractLoop, hs, List.findSome?_cons, hR, ih st hst]
    | some s =>
      by_cases hse : s = []
      · have hR : acceptTag a t = none := by simp [acceptTag, hs, hse]
        simp [extractLoop, hs, hse, List.findSome?_cons, hR, ih st hst]
      · cases hn : normalizeSrc a s with
        | some u =>
          by_cases he : extOkB u = true
          · have hR : acceptTag a t = some u := by simp [acceptTag, hs, hse, hn, he]
            simp [extractLoop, hs, hse, hn, he, List.findSome?_cons, hR]
          · have hR : acceptTag a t = none := by simp [acceptTag, hs, hse, hn, he]
            have hrec := ih (some u) (by intro v hv; cases hv; simpa using he)
            simp [extractLoop, hs, hse, hn, he, List.findSome?_cons, hR, hrec]
        | none =>
          have hR : acceptTag a t = none := by simp [acceptTag, hs, hse, hn]
          cases st with
          | none =>
            simp [extractLoop, hs, hse, hn, List.findSome?_cons, hR, ih none hst]
          | some u =>
            have hu := hst u rfl
            simp [extractLoop, hs, hse, hn, hu, List.findSome?_cons, hR,
              ih (some u) hst]

/-! ## C1: acceptance test of the extraction loop -/

/-- Stated from the spec's words, for comparison with the code: the path
component of a URL (the part after the scheme and network location, up to a
query or fragment). -/
def specPathOf (u : Str) : Str :=
  match splitSS u with
  | some (_, rest) =>
    (rest.dropWhile (fun c => c ≠ '/')).takeWhile (fun c => c ≠ '?' && c ≠ '#')
  | none => u.takeWhile (fun c => c ≠ '?' && c ≠ '#')

/-- Stated from the spec's words, for comparison with the code: the URL's
path ends (case-insensitively) in one of the five image extensions. -/
def specPathAccepts (u : Str) : Bool :=
  [str ".jpg", str ".jpeg", str ".png", str ".gif", str ".webp"].any
    (fun e => endsWithL e (toLowerL (specPathOf u)))

/-- A page whose only strategy hit is a first-anywhere `img` whose source URL
has the extension in the query string, not at the end of the path. -/
def pageC1 : Page :=
  ⟨none, none, none, none, some (.img (some (str "http://e.com/view?f=.jpg")) none)⟩

/-- C1, counterexample: the code accepts and returns a URL whose `.jpg`
occurs only in the query string, so its path does not end in an accepted
image extension, contradicting the claim that such a candidate is never
returned. -/
theorem c1_counterexample :
    extractFromPage (str "http://news.example.com/a") pageC1 =
      some (str "http://e.com/view?f=.jpg") ∧
    specPathAccepts (str "http://e.com/view?f=.jpg") = false := by
  constructor
  · decide
  · decide

/-- C1 (amended): for every fetched article page the loop evaluates the five
strategies in their fixed order and returns the first strategy's candidate
URL that, after normalisation, contains one of `.jpg`, `.jpeg`, `.png`,
`.gif`, `.webp` case-insensitively as a substring anywhere in the URL; a
candidate containing none of these substrings is never returned, and if no
strategy yields an accepted URL the result is none. -/
theorem c1_first_match_substring_accept (a : Str) (p : Page) :
    extractFromPage a p = (patternsOf p).findSome? (acceptTag a) ∧
    (∀ u, extractFromPage a p = some u → extOkB u = true) := by
  have hchar : extractFromPage a p = (patternsOf p).findSome? (acceptTag a) :=
    extractLoop_eq a (patternsOf p) none (by intro u h; cases h)
  refine ⟨hchar, ?_⟩
  intro u hu
  rw [hchar] at hu
  obtain ⟨t, _, hacc⟩ := List.exists_of_findSome?_eq_some hu
  exact acceptTag_extOk hacc

/-- A page whose first strategy already yields an acceptable URL. -/
def pageW1 : Page :=
  ⟨some (.img (some (str "http://img.com/x.png")) none), none, none, none, none⟩

/-- Witness for the amended C1 at a concrete page. -/
theorem c1_witness :
    extractFromPage (str "http://n.com/a") pageW1 = some (str "http://img.com/x.png") ∧
    extOkB (str "http://img.com/x.png") = true := by
  refine ⟨by decide, ?_⟩
  exact (c1_first_match_substring_accept (str "http://n.com/a") pageW1).2
    (str "http://img.com/x.png") (by decide)

/-! ## C9: shape of every returned image URL -/

/-- The three normalisation shapes of the loop body: `https:` prepended to a
protocol-relative source, a root-relative source resolved against the article
URL, or a source already starting with `http` taken verbatim. -/
def NormalizesP (a src u : Str) : Prop :=
  (startsWithL (str "//") src = true ∧ u = str "https:" ++ src) ∨
  (startsWithL (str "//") src = false ∧ startsWithL (str "/") src = true ∧
    u = urljoinRoot a src) ∨
  (startsWithL (str "http") src = true ∧ u = src)

lemma normalizeSrc_cases {a s u : Str} (h : normalizeSrc a s = some u) :
    NormalizesP a s u := by
  unfold normalizeSrc at h
  by_cases h1 : startsWithL (str "//") s = true
  · rw [if_pos h1] at h
    cases h
    exact Or.inl ⟨h1, rfl⟩
  · rw [if_neg h1] at h
    by_cases h2 : startsWithL (str "/") s = true
    · rw [if_pos h2] at h
      cases h
      exact Or.inr (Or.inl ⟨by simpa using h1, h2, rfl⟩)
    · rw [if_neg h2] at h
      by_cases h3 : startsWithL (str "http") s = true
      · rw [if_pos h3] at h
        cases h
        exact Or.inr (Or.inr ⟨h3, rfl⟩)
      · rw [if_neg h3] at h
        cases h

lemma splitSS_http : ∀ r : Str, splitSS (str "http://" ++ r) = some (str "http://", r) :=
  fun _ => rfl

lemma splitSS_https : ∀ r : Str, splitSS (str "https://" ++ r) = some (str "https://", r) :=
  fun _ => rfl

lemma sw_http_of_https_rel : ∀ s : Str, startsWithL (str "http") (str "https:" ++ s) = true :=
  fun _ => rfl

lemma sw_http_of_http_base : ∀ s : Str, startsWithL (str "http") (str "http://" ++ s) = true :=
  fun _ => rfl

lemma sw_http_of_https_base : ∀ s : Str, startsWithL (str "http") (str "https://" ++ s) = true :=
  fun _ => rfl

lemma urljoin_http_eval : ∀ r src : Str,
    startsWithL (str "http") (urljoinRoot (str "http://" ++ r) src) = true :=
  fun _ _ => rfl

lemma urljoin_https_eval : ∀ r src : Str,
    startsWithL (str "http") (urljoinRoot (str "https://" ++ r) src) = true :=
  fun _ _ => rfl

lemma urljoinRoot_http {a : Str}
    (h : startsWithL (str "http://") a = true ∨ startsWithL (str "https://") a = true)
    (src : Str) : startsWithL (str "http") (urljoinRoot a src) = true := by
  rcases h with h | h
  · obtain ⟨r, rfl⟩ := startsWithL_ex h
    exact urljoin_http_eval r src
  · obtain ⟨r, rfl⟩ := startsWithL_ex h
    exact urljoin_https_eval r src

/-- C9: whenever the extractor returns a URL for an article fetched over
http(s), that URL starts with `http`, and it is the normalisation of some
candidate source attribute of the page in one of the three shapes
(protocol-relative with `https:` prepended, root-relative resolved against
the article URL, or already `http`-prefixed); a source of any other shape is
never returned. -/
theorem c9_returned_url_shape (a : Str) (p : Page) (u : Str)
    (ha : startsWithL (str "http://") a = true ∨ startsWithL (str "https://") a = true)
    (hu : extractFromPage a p = some u) :
    startsWithL (str "http") u = true ∧
    ∃ t ∈ patternsOf p, ∃ src, srcOf t = some src ∧ NormalizesP a src u := by
  have hchar : extractFromPage a p = (patternsOf p).findSome? (acceptTag a) :=
    extractLoop_eq a (patternsOf p) none (by intro v h; cases h)
  rw [hchar] at hu
  obtain ⟨t, ht, hacc⟩ := List.exists_of_findSome?_eq_some hu
  have hsrc : ∃ src, srcOf t = some src ∧ normalizeSrc a src = some u := by
    unfold acceptTag at hacc
    cases hs : srcOf t with
    | none => rw [hs] at hacc; cases hacc
    | some s =>
      rw [hs] at hacc
      by_cases hse : s = []
      · simp [hse] at hacc
      · simp only [hse, if_false] at hacc
        cases hn : normalizeSrc a s with
        | none => rw [hn] at hacc; cases hacc
        | some v =>
          rw [hn] at hacc
          by_cases he : extOkB v = true
          · simp only [he, if_true] at hacc
            cases hacc
            exact ⟨s, rfl, hn⟩
          · simp [he] at hacc
  obtain ⟨src, hsome, hnorm⟩ := hsrc
  have hshape := normalizeSrc_cases hnorm
  refine ⟨?_, t, ht, src, hsome, hshape⟩
  rcases hshape with ⟨_, rfl⟩ | ⟨_, _, rfl⟩ | ⟨hsw, rfl⟩
  · exact sw_http_of_https_rel src
  · exact urljoinRoot_http ha src
  · exact hsw

/-- A page whose `og:image` meta carries a protocol-relative source. -/
def pageW9 : Page :=
  ⟨none, some (.meta (some (str "//cdn.x/pic.jpg"))), none, none, none⟩

/-- Witness for C9 at a concrete page: the protocol-relative source is
returned with `https:` prepended. -/
theorem c9_witness :
    startsWithL (str "http") (str "https://cdn.x/pic.jpg") = true ∧
    ∃ t ∈ patternsOf pageW9, ∃ src, srcOf t = some src ∧
      NormalizesP (str "http://n.com/art") src (str "https://cdn.x/pic.jpg") := by
  exact c9_returned_url_shape (str "http://n.com/art") pageW9 (str "https://cdn.x/pic.jpg")
    (Or.inl (by decide)) (by decide)

/-! ## C3 and C5: the image archiver -/

/-- C3: when the downloaded response's content type does not indicate an
image (the source's test is `'image' in content_type`, with an absent header
defaulting to the empty string), the archiver returns none and the
`put_object` upload is never invoked (empty call list). -/
theorem c3_non_image_rejected (r : ImgResp) (dt : Timestamp) (upOk : Str → Bool)
    (uid : Str) (h : hasSub (str "image") (r.contentType.getD []) = false) :
    download_and_upload_image (some r) dt upOk uid = (none, []) := by
  unfold download_and_upload_image
  simp [h]

/-- A fixed concrete date and upload oracle for the archiver witnesses. -/
def dtW : Timestamp := ⟨2025, 10, 12, 3, 4, 5⟩

def upOkW : Str → Bool := fun _ => true

/-- Witness for C3: a `text/html` response and a response with no
content-type header are both rejected with no upload call. -/
theorem c3_witness :
    (hasSub (str "image") ((ImgResp.mk (some (str "text/html"))).contentType.getD []) = false ∧
      download_and_upload_image (some (ImgResp.mk (some (str "text/html")))) dtW upOkW
        (str "u1") = (none, [])) ∧
    (hasSub (str "image") ((ImgResp.mk none).contentType.getD []) = false ∧
      download_and_upload_image (some (ImgResp.mk none)) dtW upOkW (str "u1") = (none, [])) :=
  ⟨⟨by decide, c3_non_image_rejected _ dtW upOkW (str "u1") (by decide)⟩,
    ⟨by decide, c3_non_image_rejected _ dtW upOkW (str "u1") (by decide)⟩⟩

/-- C5: on a successful archive the stored key is
`images/news/<year>/<month>/<day>/<uid><ext>` for the given calendar date,
with the extension derived from the content type and defaulting to `.jpg`
when unrecognised; the single `put_object` call uses exactly that key, and
the returned URL is the fixed CDN base followed by that key (a pure string
concatenation, with no further call recorded). -/
theorem c5_storage_key_and_cdn_url (r : ImgResp) (dt : Timestamp) (upOk : Str → Bool)
    (uid : Str) (h1 : hasSub (str "image") (r.contentType.getD []) = true)
    (h2 : upOk (s3KeyOf dt uid (extFor (r.contentType.getD []))) = true) :
    download_and_upload_image (some r) dt upOk uid =
      (some (cdnBase ++ s3KeyOf dt uid (extFor (r.contentType.getD []))),
        [s3KeyOf dt uid (extFor (r.contentType.getD []))]) ∧
    s3KeyOf dt uid (extFor (r.contentType.getD [])) =
      str "images/news/" ++ natStr dt.y ++ str "/" ++ padNat 2 dt.mo ++ str "/" ++
        padNat 2 dt.d ++ str "/" ++ uid ++ extFor (r.contentType.getD []) ∧
    (guessExtension (r.contentType.getD []) = none →
      extFor (r.contentType.getD []) = str ".jpg") := by
  refine ⟨?_, ?_, ?_⟩
  · unfold download_and_upload_image
    simp [h1, h2]
  · simp [s3KeyOf, List.append_assoc]
  · intro hg
    simp [extFor, hg]

/-- Witness for C5: an `image/png` response on 2025-10-12 is uploaded under
the date-partitioned key with extension `.png` and answered with the CDN
URL derived from that key. -/
theorem c5_witness :
    hasSub (str "image") ((ImgResp.mk (some (str "image/png"))).contentType.getD []) = true ∧
    download_and_upload_image (some (ImgResp.mk (some (str "image/png")))) dtW upOkW
        (str "u1") =
      (some (cdnBase ++ s3KeyOf dtW (str "u1") (extFor (str "image/png"))),
        [s3KeyOf dtW (str "u1") (extFor (str "image/png"))]) :=
  ⟨by decide,
    (c5_storage_key_and_cdn_url (ImgResp.mk (some (str "image/png"))) dtW upOkW (str "u1")
      (by decide) (by decide)).1⟩

/-! ## C8: markup stripping -/

lemma lineHasGt_of_no_gt : ∀ xs : Str, (∀ c ∈ xs, c ≠ '>') → lineHasGt xs = false := by
  intro xs h
  induction xs with
  | nil => rfl
  | cons c cs ih =>
    have hc : c ≠ '>' := h c (List.mem_cons_self c cs)
    by_cases hn : c = '\n'
    · simp [lineHasGt, hc, hn]
    · simp [lineHasGt, hc, hn]
      exact ih (fun d hd => h d (List.mem_cons_of_mem c hd))

lemma lineHasGt_append_nl (xs ys : Str) (h : ∀ c ∈ xs, c ≠ '>') :
    lineHasGt (xs ++ '\n' :: ys) = false := by
  induction xs with
  | nil => rfl
  | cons c cs ih =>
    have hc : c ≠ '>' := h c (List.mem_cons_self c cs)
    by_cases hn : c = '\n'
    · simp [lineHasGt, hc, hn]
    · simp [lineHasGt, hc, hn]
      exact ih (fun d hd => h d (List.mem_cons_of_mem c hd))

lemma noLineTagB_of_no_gt : ∀ xs : Str, (∀ c ∈ xs, c ≠ '>') → noLineTagB xs = true := by
  intro xs h
  induction xs with
  | nil => rfl
  | cons c cs ih =>
    have hrest : ∀ d ∈ cs, d ≠ '>' := fun d hd => h d (List.mem_cons_of_mem c hd)
    simp [noLineTagB, lineHasGt_of_no_gt cs hrest, ih hrest]

lemma noLineTagB_append_nl (xs ys : Str) (h : ∀ c ∈ xs, c ≠ '>') :
    noLineTagB (xs ++ '\n' :: ys) = noLineTagB ys := by
  induction xs with
  | nil => simp [noLineTagB]
  | cons c cs ih =>
    have hrest : ∀ d ∈ cs, d ≠ '>' := fun d hd => h d (List.mem_cons_of_mem c hd)
    simp [noLineTagB, lineHasGt_append_nl cs ys hrest, ih hrest]

lemma noLineTag_cleanAux : ∀ s : Str,
    noLineTagB (cleanAux none s) = true ∧
    ∀ buf : Str, (∀ c ∈ buf, c ≠ '>') → noLineTagB (cleanAux (some buf) s) = true := by
  intro s
  induction s with
  | nil =>
    refine ⟨rfl, ?_⟩
    intro buf h
    have : ∀ c ∈ buf.reverse, c ≠ '>' := by
      intro c hc
      exact h c (List.mem_reverse.mp hc)
    simpa [cleanAux] using noLineTagB_of_no_gt buf.reverse this
  | cons c cs ih =>
    constructor
    · by_cases hlt : c = '<'
      · simp only [cleanAux, hlt, if_true]
        exact ih.2 ['<'] (by intro d hd; simp at hd; subst hd; decide)
      · simp [cleanAux, hlt, noLineTagB, ih.1]
    · intro buf hbuf
      by_cases hgt : c = '>'
      · simp only [cleanAux, hgt, if_true]
        exact ih.1
      · by_cases hnl : c = '\n'
        · subst hnl
          simp only [cleanAux]
          rw [if_neg (by decide : ¬('\n' = '>'))]
          simp only [if_true]
          rw [noLineTagB_append_nl buf.reverse _ (by
            intro d hd
            exact hbuf d (List.mem_reverse.mp hd))]
          exact ih.1
        · simp only [cleanAux, hgt, hnl, if_false]
          refine ih.2 (c :: buf) ?_
          intro d hd
          rcases List.mem_cons.mp hd with rfl | hd
          · exact hgt
          · exact hbuf d hd

lemma noLineTag_clean (s : Str) : noLineTagB (clean_html_tags s) = true :=
  (noLineTag_cleanAux s).1

/-- A raw search result whose title carries a markup tag spanning a newline
(HTML permits whitespace, including newlines, inside a tag). -/
def raw8 : RawItem :=
  { title := str "<a\nb>x"
    description := str "d<b>e</b>"
    originallink := []
    link := str "l"
    pubDate := str "p" }

/-- A world delivering exactly `raw8` for the first keyword, with all
writes succeeding. -/
def w8 : World :=
  { search := fun i => if i = 0 then .resp 200 [raw8] else .err
    page := fun _ => none
    imageResp := fun _ => none
    uploadOk := fun _ => true
    stamp := fun _ _ => ⟨2025, 1, 1, 0, 0, 0⟩
    rand8 := fun _ _ => str "aaaabbbbcccc"
    itemId := fun _ _ => str "id0"
    collectedAt := fun _ _ => str "t0"
    archiveDate := fun _ _ => ⟨2025, 1, 1, 0, 0, 0⟩
    putOk := fun _ _ => true }

/-- C8, counterexample: the regex `<.*?>` cannot match across a newline, so
a stored item's title can still contain a markup tag; the title is not the
raw title with all markup removed. -/
theorem c8_counterexample :
    ((runPipeline [str "k"] w8).collected.map (fun it => it.title)) = [str "<a\nb>x"] ∧
    containsTagB (str "<a\nb>x") = true := by
  constructor
  · decide
  · decide

/-- C8 (amended): every stored item's title and description equal the raw
ones with every markup tag lying on a single line removed; the stored texts
contain no single-line markup tag, but a tag whose interior spans a newline
is preserved verbatim. -/
theorem c8_stored_text_single_line_tags_stripped (w : World) (ki ii : Nat) (k : Str)
    (raw : RawItem) (it : NewsItem) (h : processItem w ki ii k raw = some it) :
    it.title = clean_html_tags raw.title ∧
    it.description = clean_html_tags raw.description ∧
    noLineTagB it.title = true ∧ noLineTagB it.description = true := by
  by_cases hp : w.putOk ki ii = true
  · simp only [processItem, hp, if_true] at h
    cases h
    exact ⟨rfl, rfl, noLineTag_clean _, noLineTag_clean _⟩
  · simp [processItem, hp] at h

/-- The record `processItem` produces from `raw8` in the world `w8`. -/
def it8 : NewsItem :=
  { uid := mkUid ⟨2025, 1, 1, 0, 0, 0⟩ (str "aaaabbbbcccc")
    id := str "id0"
    keyword := str "k"
    title := clean_html_tags (str "<a\nb>x")
    originallink := []
    link := str "l"
    description := clean_html_tags (str "d<b>e</b>")
    pubDate := str "p"
    image_url := none
    cloudfront_image_url := none
    collected_at := str "t0"
    content_type := str "news"
    source := str "naver_api" }

/-- Witness for the amended C8 at a concrete stored item. -/
theorem c8_witness :
    processItem w8 0 0 (str "k") raw8 = some it8 ∧
    (it8.title = clean_html_tags raw8.title ∧
      it8.description = clean_html_tags raw8.description ∧
      noLineTagB it8.title = true ∧ noLineTagB it8.description = true) :=
  ⟨rfl, c8_stored_text_single_line_tags_stripped w8 0 0 (str "k") raw8 it8 rfl⟩

/-! ## C7: uid format and recency order -/

lemma padNat_length : ∀ w n, (padNat w n).length = w := by
  intro w
  induction w with
  | zero => intro n; rfl
  | succ w ih => intro n; simp [padNat, ih]

lemma strLtB_append_of_lt : ∀ (a b u v : Str), a.length = b.length →
    strLtB a b = true → strLtB (a ++ u) (b ++ v) = true := by
  intro a
  induction a with
  | nil =>
    intro b u v hl hlt
    cases b with
    | nil => simp [strLtB] at hlt
    | cons _ _ => simp at hl
  | cons x as ih =>
    intro b u v hl hlt
    cases b with
    | nil => simp at hl
    | cons y bs =>
      simp only [List.cons_append]
      simp only [strLtB] at hlt ⊢
      by_cases hv : x.val < y.val
      · simp [hv]
      · simp only [hv, if_false] at hlt ⊢
        by_cases he : x.val = y.val
        · simp only [he, if_true] at hlt ⊢
          exact ih bs u v (by simpa using hl) hlt
        · simp [he] at hlt

lemma strLtB_append_same : ∀ (x u v : Str), strLtB (x ++ u) (x ++ v) = strLtB u v := by
  intro x
  induction x with
  | nil => intro u v; rfl
  | cons c cs ih =>
    intro u v
    simp only [List.cons_append, strLtB]
    simp [ih u v, lt_irrefl]

lemma strLtB_block (a b u v : Str) (hl : a.length = b.length)
    (h : strLtB a b = true ∨ (a = b ∧ strLtB u v = true)) :
    strLtB (a ++ u) (b ++ v) = true := by
  rcases h with h | ⟨rfl, h⟩
  · exact strLtB_append_of_lt a b u v hl h
  · rw [strLtB_append_same]; exact h

lemma digitChar_mono : ∀ d1, d1 < 10 → ∀ d2, d2 < 10 → d1 < d2 →
    (digitChar d1).val < (digitChar d2).val := by decide

lemma padNat_mono : ∀ (w m n : Nat), m < n → n < 10 ^ w →
    strLtB (padNat w m) (padNat w n) = true := by
  intro w
  induction w with
  | zero =>
    intro m n hmn hn
    simp only [pow_zero] at hn
    omega
  | succ w ih =>
    intro m n hmn hn
    show strLtB (padNat w (m / 10) ++ [digitChar (m % 10)])
      (padNat w (n / 10) ++ [digitChar (n % 10)]) = true
    by_cases hd : m / 10 < n / 10
    · apply strLtB_append_of_lt _ _ _ _ (by rw [padNat_length, padNat_length])
      apply ih _ _ hd
      apply Nat.div_lt_of_lt_mul
      rw [← pow_succ']
      exact hn
    · have hde : m / 10 = n / 10 :=
        Nat.le_antisymm (Nat.div_le_div_right (Nat.le_of_lt hmn)) (Nat.le_of_not_lt hd)
      have hmod : m % 10 < n % 10 := by
        have hm1 := Nat.div_add_mod m 10
        have hn1 := Nat.div_add_mod n 10
        omega
      rw [hde, strLtB_append_same]
      have hv : (digitChar (m % 10)).val < (digitChar (n % 10)).val :=
        digitChar_mono _ (Nat.mod_lt _ (by norm_num)) _ (Nat.mod_lt _ (by norm_num)) hmod
      simp [strLtB, hv]

/-- Field bounds any real `datetime` satisfies (`datetime` years are at most
9999, and the two-digit fields are below 100). -/
def validTs (t : Timestamp) : Prop :=
  t.y < 10 ^ 4 ∧ t.mo < 10 ^ 2 ∧ t.d < 10 ^ 2 ∧ t.h < 10 ^ 2 ∧ t.mi < 10 ^ 2 ∧
    t.s < 10 ^ 2

/-- Chronological order on timestamps, to second granularity: strictly
earlier in the field-lexicographic sense. -/
def tsLtP (t1 t2 : Timestamp) : Prop :=
  t1.y < t2.y ∨ (t1.y = t2.y ∧ (t1.mo < t2.mo ∨ (t1.mo = t2.mo ∧
    (t1.d < t2.d ∨ (t1.d = t2.d ∧ (t1.h < t2.h ∨ (t1.h = t2.h ∧
      (t1.mi < t2.mi ∨ (t1.mi = t2.mi ∧ t1.s < t2.s)))))))))

instance (t : Timestamp) : Decidable (validTs t) := by
  unfold validTs
  infer_instance

instance (t1 t2 : Timestamp) : Decidable (tsLtP t1 t2) := by
  unfold tsLtP
  infer_instance

lemma fmtStamp_assoc (t : Timestamp) : fmtStamp t =
    padNat 4 t.y ++ (padNat 2 t.mo ++ (padNat 2 t.d ++ (['_'] ++ (padNat 2 t.h ++
      (padNat 2 t.mi ++ (padNat 2 t.s ++ ['_'])))))) := by
  simp [fmtStamp, List.append_assoc]

lemma fmtStamp_length (t : Timestamp) : (fmtStamp t).length = 16 := by
  simp [fmtStamp, List.length_append, padNat_length]

lemma fmtStamp_mono (t1 t2 : Timestamp) (h1 : validTs t1) (h2 : validTs t2)
    (hlt : tsLtP t1 t2) : strLtB (fmtStamp t1) (fmtStamp t2) = true := by
  obtain ⟨hy1, hmo1, hd1, hh1, hmi1, hs1⟩ := h1
  obtain ⟨hy2, hmo2, hd2, hh2, hmi2, hs2⟩ := h2
  rw [fmtStamp_assoc, fmtStamp_assoc]
  apply strLtB_block _ _ _ _ (by rw [padNat_length, padNat_length])
  rcases hlt with hy | ⟨hye, hmo | ⟨hmoe, hd | ⟨hde, hh | ⟨hhe, hmi | ⟨hmie, hs⟩⟩⟩⟩⟩
  · exact Or.inl (padNat_mono 4 _ _ hy hy2)
  · refine Or.inr ⟨by rw [hye], ?_⟩
    apply strLtB_block _ _ _ _ (by rw [padNat_length, padNat_length])
    exact Or.inl (padNat_mono 2 _ _ hmo hmo2)
  · refine Or.inr ⟨by rw [hye], ?_⟩
    apply strLtB_block _ _ _ _ (by rw [padNat_length, padNat_length])
    refine Or.inr ⟨by rw [hmoe], ?_⟩
    apply strLtB_block _ _ _ _ (by rw [padNat_length, padNat_length])
    exact Or.inl (padNat_mono 2 _ _ hd hd2)
  · refine Or.inr ⟨by rw [hye], ?_⟩
    apply strLtB_block _ _ _ _ (by rw [padNat_length, padNat_length])
    refine Or.inr ⟨by rw [hmoe], ?_⟩
    apply strLtB_block _ _ _ _ (by rw [padNat_length, padNat_length])
    refine Or.inr ⟨by rw [hde], ?_⟩
    apply strLtB_block _ _ _ _ rfl
    refine Or.inr ⟨rfl, ?_⟩
    apply strLtB_block _ _ _ _ (by rw [padNat_length, padNat_length])
    exact Or.inl (padNat_mono 2 _ _ hh hh2)
  · refine Or.inr ⟨by rw [hye], ?_⟩
    apply strLtB_block _ _ _ _ (by rw [padNat_length, padNat_length])
    refine Or.inr ⟨by rw [hmoe], ?_⟩
    apply strLtB_block _ _ _ _ (by rw [padNat_length, padNat_length])
    refine Or.inr ⟨by rw [hde], ?_⟩
    apply strLtB_block _ _ _ _ rfl
    refine Or.inr ⟨rfl, ?_⟩
    apply strLtB_block _ _ _ _ (by rw [padNat_length, padNat_length])
    refine Or.inr ⟨by rw [hhe], ?_⟩
    apply strLtB_block _ _ _ _ (by rw [padNat_length, padNat_length])
    exact Or.inl (padNat_mono 2 _ _ hmi hmi2)
  · refine Or.inr ⟨by rw [hye], ?_⟩
    apply strLtB_block _ _ _ _ (by rw [padNat_length, padNat_length])
    refine Or.inr ⟨by rw [hmoe], ?_⟩
    apply strLtB_block _ _ _ _ (by rw [padNat_length, padNat_length])
    refine Or.inr ⟨by rw [hde], ?_⟩
    apply strLtB_block _ _ _ _ rfl
    refine Or.inr ⟨rfl, ?_⟩
    apply strLtB_block _ _ _ _ (by rw [padNat_length, padNat_length])
    refine Or.inr ⟨by rw [hhe], ?_⟩
    apply strLtB_block _ _ _ _ (by rw [padNat_length, padNat_length])
    refine Or.inr ⟨by rw [hmie], ?_⟩
    apply strLtB_block _ _ _ _ (by rw [padNat_length, padNat_length])
    exact Or.inl (padNat_mono 2 _ _ hs hs2)

/-- C7: every generated uid is the second-granular timestamp rendering
(16 characters, `YYYYMMDD_HHMMSS_`) followed by the first 8 characters of
the random source (24 characters in total), and a uid generated at a
strictly later second is lexicographically strictly greater (hence at
least as great, as claimed) regardless of the random suffixes. -/
theorem c7_uid_format_and_recency_order (t1 t2 : Timestamp) (r1 r2 : Str)
    (h1 : validTs t1) (h2 : validTs t2) (hlt : tsLtP t1 t2) (hr1 : 8 ≤ r1.length) :
    strLtB (mkUid t1 r1) (mkUid t2 r2) = true ∧
    (mkUid t1 r1).length = 24 ∧
    (mkUid t1 r1).take 16 = fmtStamp t1 ∧
    (mkUid t1 r1).drop 16 = r1.take 8 := by
  refine ⟨?_, ?_, ?_, ?_⟩
  · exact strLtB_append_of_lt _ _ _ _ (by rw [fmtStamp_length, fmtStamp_length])
      (fmtStamp_mono t1 t2 h1 h2 hlt)
  · simp only [mkUid, List.length_append, fmtStamp_length, List.length_take]
    omega
  · rw [mkUid, ← fmtStamp_length t1, List.take_left]
  · rw [mkUid, ← fmtStamp_length t1, List.drop_left]

def t7a : Timestamp := ⟨2025, 1, 2, 3, 4, 5⟩

def t7b : Timestamp := ⟨2025, 1, 2, 3, 4, 6⟩

/-- Witness for C7 at two concrete generation instants one second apart. -/
theorem c7_witness :
    (validTs t7a ∧ validTs t7b ∧ tsLtP t7a t7b ∧ 8 ≤ (str "abcd1234efgh").length) ∧
    strLtB (mkUid t7a (str "abcd1234efgh")) (mkUid t7b (str "00000000zz")) = true ∧
    (mkUid t7a (str "abcd1234efgh")).length = 24 :=
  ⟨⟨by decide, by decide, by decide, by decide⟩,
    (c7_uid_format_and_recency_order t7a t7b (str "abcd1234efgh") (str "00000000zz")
      (by decide) (by decide) (by decide) (by decide)).1,
    (c7_uid_format_and_recency_order t7a t7b (str "abcd1234efgh") (str "00000000zz")
      (by decide) (by decide) (by decide) (by decide)).2.1⟩

/-! ## C6: soft-failure isolation of the ingestion run -/

lemma itemLoop_eq (w : World) (ki : Nat) (k : Str) : ∀ (items : List RawItem) (ii : Nat),
    itemLoop w ki k ii items =
      (List.enumFrom ii items).flatMap (fun q => (processItem w ki q.1 k q.2).toList) := by
  intro items
  induction items with
  | nil => intro ii; rfl
  | cons r rest ih =>
    intro ii
    show (match processItem w ki ii k r with
      | some it => it :: itemLoop w ki k (ii + 1) rest
      | none => itemLoop w ki k (ii + 1) rest) = _
    cases hp : processItem w ki ii k r with
    | some it => simp [List.enumFrom, hp, ih]
    | none => simp [List.enumFrom, hp, ih]

lemma collectLoop_eq (w : World) : ∀ (ks : List Str) (i : Nat),
    collectLoop w i ks =
      (List.enumFrom i ks).flatMap (fun p => processKeyword w p.1 p.2) := by
  intro ks
  induction ks with
  | nil => intro i; rfl
  | cons k rest ih => intro i; simp [collectLoop, List.enumFrom, ih]

/-- C6: the run always completes with status 200 (the keyword loop catches
every per-keyword exception and the item loop catches every per-item write
error); the collected output is the in-order concatenation of per-keyword
contributions, where a keyword whose search raised or answered non-200
contributes nothing (the rest of the run is unaffected), and within a
keyword each item whose store write failed is dropped while the other items
of the same keyword are kept. -/
theorem c6_soft_failure_isolation (w : World) (ks : List Str) :
    (runPipeline ks w).statusCode = 200 ∧
    (runPipeline ks w).collected =
      (List.enum ks).flatMap (fun p => processKeyword w p.1 p.2) ∧
    (∀ i k, w.search i = .err → processKeyword w i k = []) ∧
    (∀ i k status items, w.search i = .resp status items → status ≠ 200 →
      processKeyword w i k = []) ∧
    (∀ ki ii k raw, w.putOk ki ii = false → processItem w ki ii k raw = none) ∧
    (∀ ki k items, w.search ki = .resp 200 items →
      processKeyword w ki k =
        (List.enum items).flatMap (fun q => (processItem w ki q.1 k q.2).toList)) := by
  refine ⟨rfl, ?_, ?_, ?_, ?_, ?_⟩
  · exact collectLoop_eq w ks 0
  · intro i k h
    simp [processKeyword, h]
  · intro i k status items h hne
    simp [processKeyword, h, hne]
  · intro ki ii k raw h
    simp [processItem, h]
  · intro ki k items h
    simp only [processKeyword, h, if_pos rfl]
    exact itemLoop_eq w ki k items 0

/-- A raw item with no original link (the image sub-pipeline is skipped). -/
def rawB : RawItem :=
  { title := str "t", description := str "d", originallink := [], link := str "l",
    pubDate := str "p" }

/-- A world where the first keyword's search raises, the second answers 200
with two items, and the second item's store write fails. -/
def w6 : World :=
  { search := fun i => if i = 0 then .err else .resp 200 [rawB, rawB]
    page := fun _ => none
    imageResp := fun _ => none
    uploadOk := fun _ => false
    stamp := fun _ _ => ⟨2025, 1, 1, 0, 0, 0⟩
    rand8 := fun _ _ => str "aaaabbbb"
    itemId := fun _ _ => str "i"
    collectedAt := fun _ _ => str "c"
    archiveDate := fun _ _ => ⟨2025, 1, 1, 0, 0, 0⟩
    putOk := fun ki ii => !(ki == 1 && ii == 1) }

/-- Witness for C6: the failing keyword contributes nothing, the failing
item is dropped, and the run still stores the remaining item. -/
theorem c6_witness :
    (w6.search 0 = .err ∧ processKeyword w6 0 (str "a") = []) ∧
    (w6.putOk 1 1 = false ∧ processItem w6 1 1 (str "b") rawB = none) ∧
    (runPipeline [str "a", str "b"] w6).collected.length = 1 :=
  ⟨⟨rfl, (c6_soft_failure_isolation w6 [str "a", str "b"]).2.2.1 0 (str "a") rfl⟩,
    ⟨by decide,
      (c6_soft_failure_isolation w6 [str "a", str "b"]).2.2.2.2.1 1 1 (str "b") rawB
        (by decide)⟩,
    by decide⟩

/-! ## C10: the event and context are never read -/

/-- C10: two invocations with arbitrary different events (including events
carrying a `keywords` field) and contexts, against the same external world,
process the same hard-coded keyword list and return identical results. -/
theorem c10_event_independence (e1 e2 : EventT) (c1 c2 : CtxT) (w : World) :
    lambda_handler e1 c1 w = lambda_handler e2 c2 w ∧
    (lambda_handler e1 c1 w).keywords_searched = [str "비트코인"] :=
  ⟨rfl, rfl⟩

/-! ## C4: misconfiguration is not fatal -/

/-- A world where every search answers HTTP 401, as happens when the Naver
credentials are absent from the environment. -/
def w401 : World :=
  { search := fun _ => .resp 401 []
    page := fun _ => none
    imageResp := fun _ => none
    uploadOk := fun _ => true
    stamp := fun _ _ => ⟨2025, 1, 1, 0, 0, 0⟩
    rand8 := fun _ _ => str "aaaabbbb"
    itemId := fun _ _ => str "i"
    collectedAt := fun _ _ => str "c"
    archiveDate := fun _ _ => ⟨2025, 1, 1, 0, 0, 0⟩
    putOk := fun _ _ => true }

/-- C4, counterexample: an unreachable store at API startup is caught and
the service keeps starting (no error is surfaced), and a collector run whose
searches all fail with 401 (missing credentials) completes normally with a
200 result, rather than aborting. -/
theorem c4_counterexample :
    startup_event (.error (str "DynamoDB unreachable")) = .ok none ∧
    (runPipeline [str "비트코인"] w401).statusCode = 200 ∧
    (runPipeline [str "비트코인"] w401).collected = [] := by
  refine ⟨rfl, rfl, ?_⟩
  decide

/-- C4 (amended): process-level misconfiguration is not fatal in this code:
the API's startup handler catches any store-connection failure, logs, and
lets the service continue, and a collector run whose every search answers a
non-200 status (as with missing credentials) completes normally with status
200 and zero stored items. -/
theorem c4_swallowed_misconfiguration :
    (∀ e : Str, startup_event (.error e) = .ok none) ∧
    (∀ (w : World) (ks : List Str),
      (∀ i, ∃ st items, w.search i = .resp st items ∧ st ≠ 200) →
      (runPipeline ks w).statusCode = 200 ∧ (runPipeline ks w).collected = []) := by
  constructor
  · intro e; rfl
  · intro w ks h
    refine ⟨rfl, ?_⟩
    show collectLoop w 0 ks = []
    suffices hgen : ∀ (ks : List Str) (i : Nat), collectLoop w i ks = [] from hgen ks 0
    intro ks
    induction ks with
    | nil => intro i; rfl
    | cons k rest ih =>
      intro i
      obtain ⟨st, items, hsi, hne⟩ := h i
      simp [collectLoop, processKeyword, hsi, hne, ih]

/-- Witness for the amended C4: the all-401 world satisfies the hypothesis
and the run completes with nothing collected. -/
theorem c4_witness :
    (∀ i, ∃ st items, w401.search i = .resp st items ∧ st ≠ 200) ∧
    ((runPipeline [str "비트코인"] w401).statusCode = 200 ∧
      (runPipeline [str "비트코인"] w401).collected = []) :=
  ⟨fun _ => ⟨401, [], rfl, by decide⟩,
    c4_swallowed_misconfiguration.2 w401 [str "비트코인"]
      (fun _ => ⟨401, [], rfl, by decide⟩)⟩

/-! ## C2: the read path's scan-then-sort page -/

lemma insertDesc_length (x : StoredItem) : ∀ l : List StoredItem,
    (insertDesc x l).length = l.length + 1 := by
  intro l
  induction l with
  | nil => rfl
  | cons y ys ih =>
    by_cases h : strLtB y.uid x.uid = true
    · simp [insertDesc, h]
    · simp [insertDesc, h, ih]

lemma sortDesc_length (l : List StoredItem) : (sortDesc l).length = l.length := by
  unfold sortDesc
  suffices h : ∀ (l acc : List StoredItem),
      (l.foldl (fun acc x => insertDesc x acc) acc).length = l.length + acc.length by
    simpa using h l []
  intro l
  induction l with
  | nil => intro acc; simp
  | cons x xs ih =>
    intro acc
    simp only [List.foldl_cons, ih, insertDesc_length, List.length_cons]
    omega

/-- The store of 25 items of the spec's scenario, in the table's scan order:
the scan order starts at the oldest uid, so the first scanned page is not
the most recent data. -/
def store25 : List StoredItem :=
  (List.range 25).map (fun i => ⟨padNat 2 (i + 1), str "k"⟩)

/-- C2, counterexample: with 25 stored items and limit 10, the read path
scans the first 10 items in scan order and sorts them, which differs from
the 10 most-recent-by-uid items (the latter being the first 10 of the fully
sorted store); the same holds for the query service's
`get_news(limit=10, offset=0)`. -/
theorem c2_counterexample :
    get_news_from_dynamodb 10 store25 ≠ (sortDesc store25).take 10 ∧
    db_get_news 10 0 none store25 ≠ (sortDesc store25).take 10 := by
  constructor
  · decide
  · decide

/-- C2 (amended): the read path's scan returns the first `limit` items of
the store's scan order sorted by uid descending; only when the scanned page
covers the whole store (at most `limit` stored items) is this the
most-recent-first ordering of all stored items, and then
`get_news(limit, offset=0)` returns exactly those items. -/
theorem c2_scan_page_sorted (limit : Nat) (store : List StoredItem) :
    get_news_from_dynamodb limit store = sortDesc (store.take limit) ∧
    (store.length ≤ limit → get_news_from_dynamodb limit store = sortDesc store) ∧
    (store.length ≤ limit → db_get_news limit 0 none store = sortDesc store) := by
  refine ⟨rfl, ?_, ?_⟩
  · intro h
    unfold get_news_from_dynamodb
    rw [List.take_of_length_le h]
  · intro h
    show ((sortDesc (store.take limit)).drop 0).take limit = sortDesc store
    rw [List.take_of_length_le h, List.drop_zero,
      List.take_of_length_le (by rw [sortDesc_length]; exact h)]

/-- A store small enough for one scan page. -/
def storeW2 : List StoredItem := [⟨str "05", str "k"⟩, ⟨str "09", str "k"⟩]

/-- Witness for the amended C2: a 2-item store with limit 3 is returned
fully sorted, most recent first. -/
theorem c2_witness :
    storeW2.length ≤ 3 ∧ get_news_from_dynamodb 3 storeW2 = sortDesc storeW2 :=
  ⟨by decide, (c2_scan_page_sorted 3 storeW2).2.1 (by decide)⟩
